import Mathlib

/-!
Verification development for the reconciliation engine in `src/app.py`.

The engine's cell values, strings and numbers are shallowly embedded:
spreadsheet cell contents become the tagged union `PyVal`, Python strings
become `List Char` / `String` with Python-style helper functions
(`strip`, `upper`, `replace`, `isdigit`, substring membership), monetary
amounts become `ℚ`, and dates become day numbers (`Int`).  Each embedded
definition mirrors one function of `src/app.py` and keeps its name where
Lean allows it.
-/

set_option maxRecDepth 8192

namespace App

/-- A spreadsheet/Python cell value, as the engine sees it: `null` (Python
`None`), a number, a text string, or an (already converted) datetime
represented as a day number. -/
inductive PyVal where
  | null : PyVal
  | num : ℚ → PyVal
  | text : String → PyVal
  | date : Int → PyVal
deriving DecidableEq, Repr

/-- Python truthiness of a cell value (`if cell.value:`): `None`, `0` and
`""` are falsy, everything else truthy. -/
def pyTruthy : PyVal → Bool
  | PyVal.null => false
  | PyVal.num x => x ≠ 0
  | PyVal.text s => s ≠ ""
  | PyVal.date _ => true

/-- Python `str(value)`.  Numbers and dates are rendered via `toString`;
the engine only ever searches these renderings for alphabetic header
tokens, which no numeric rendering can contain. -/
def pyStr : PyVal → String
  | PyVal.null => "None"
  | PyVal.num x => toString x
  | PyVal.text s => s
  | PyVal.date d => toString d

/-- Characters treated as whitespace by Python's `str.strip()`. -/
def pySpace (c : Char) : Bool :=
  c = ' ' || c = '\t' || c = '\n' || c = '\x0d' || c = '\x0b' || c = '\x0c'

/-- `str.strip()` from the left: drop leading whitespace. -/
def lstripL (l : List Char) : List Char := l.dropWhile pySpace

/-- `str.strip()` from the right: drop trailing whitespace. -/
def rstripL (l : List Char) : List Char := (l.reverse.dropWhile pySpace).reverse

/-- Python `str.strip()`. -/
def stripL (l : List Char) : List Char := rstripL (lstripL l)

/-- Python `str.upper()` character-wise (ASCII, as all identifiers the
engine manipulates are ASCII). -/
def upperL (l : List Char) : List Char := l.map Char.toUpper

/-- Python `str.replace(" ", "")`. -/
def delSpacesL (l : List Char) : List Char := l.filter (fun c => c ≠ ' ')

/-- Python `str.isdigit()` (ASCII): non-empty and all digits. -/
def isdigitL (l : List Char) : Bool := (l ≠ []) && l.all Char.isDigit

/-- Does the list start with `['C', 'A']` (Python `startswith("CA")`)? -/
def startsWithCA : List Char → Bool
  | c :: d :: _ => c = 'C' && d = 'A'
  | _ => false

/-- Is `n` a prefix of `h` (character lists)? -/
def leadsL : List Char → List Char → Bool
  | [], _ => true
  | _ :: _, [] => false
  | a :: as, b :: bs => (a = b) && leadsL as bs

/-- Is `n` a contiguous substring of `h` (Python `n in h` for strings)? -/
def containsL (n : List Char) : List Char → Bool
  | [] => leadsL n []
  | c :: hs => leadsL n (c :: hs) || containsL n hs

/-- Python `pat in hay` for `String`s. -/
def containsS (hay pat : String) : Bool := containsL pat.data hay.data

/-- The cleanup pipeline at the top of `normalize_unit_number`:
`str(x).strip().upper().replace(" ", "")`. -/
def cleanL (l : List Char) : List Char := delSpacesL (upperL (stripL l))

/-- `normalize_unit_number` from `src/app.py` on character lists: empty
(falsy) input maps to `""`; otherwise strip/uppercase/despace, and if the
result has no hyphen, length ≥ 5, starts with `CA` and the rest is all
digits, insert a hyphen after position 4 (length ≥ 7) or position 3
(length 5–6). -/
def normalizeL (l : List Char) : List Char :=
  if l = [] then []
  else
    let u := cleanL l
    if ('-' ∉ u) ∧ 5 ≤ u.length then
      if startsWithCA u ∧ isdigitL (u.drop 2) then
        if 7 ≤ u.length then u.take 4 ++ '-' :: u.drop 4
        else u.take 3 ++ '-' :: u.drop 3
      else u
    else u

/-- `normalize_unit_number` from `src/app.py`, on `String`. -/
def normalize_unit_number (s : String) : String := ⟨normalizeL s.data⟩

example : normalize_unit_number "CA071208" = "CA07-1208" := by decide
example : normalize_unit_number "ca 04-402" = "CA04-402" := by decide
example : normalize_unit_number "CA4402" = "CA4-402" := by decide
example : normalize_unit_number "" = "" := by decide

/-! ## `extract_excel_date` (src/app.py lines 237-287)

Dates are represented as day numbers (days since 0000-03-01 in the
standard civil-from-days correspondence); `daysFromCivil` is the usual
exact conversion.  The two library parsers the function calls first —
`pandas.to_datetime(..., errors="coerce")` and `datetime.strptime` — are
external libraries, so they are taken as parameters (`pdParse`,
`stParse`); the function's own fallback strategies (the regex
`(\d{1,2}) sep (\d{1,2}) sep (\d{2,4})` (sep one of slash, hyphen) and the all-digit-runs extraction)
are embedded concretely. -/

/-- Gregorian leap year. -/
def isLeap (y : Nat) : Bool := (y % 4 = 0 && y % 100 ≠ 0) || y % 400 = 0

/-- Days in a month, as `datetime(year, month, day)` validates. -/
def daysInMonth (y m : Nat) : Nat :=
  if m = 2 then (if isLeap y then 29 else 28)
  else if m = 4 || m = 6 || m = 9 || m = 11 then 30
  else 31

/-- Exact civil-date to day-number conversion (Hinnant's algorithm),
used to give each valid (y, m, d) a distinct, ordered day number. -/
def daysFromCivil (y m d : Nat) : Int :=
  let y' : Int := (y : Int) - (if m ≤ 2 then 1 else 0)
  let era : Int := y' / 400
  let yoe : Int := y' - era * 400
  let mp : Int := ((m : Int) + 9) % 12
  let doy : Int := (153 * mp + 2) / 5 + (d : Int) - 1
  let doe : Int := yoe * 365 + yoe / 4 - yoe / 100 + doy
  era * 146097 + doe - 719468

/-- Python `datetime(year, month, day)`: `some` day number when the triple
is a valid date, `none` when the constructor would raise (the caller's
bare `except` then yields `None`). -/
def mkDatetime (y m d : Nat) : Option Int :=
  if 1 ≤ y ∧ y ≤ 9999 ∧ 1 ≤ m ∧ m ≤ 12 ∧ 1 ≤ d ∧ d ≤ daysInMonth y m then
    some (daysFromCivil y m d)
  else none

/-- The two-digit-year fixup `if year < 100: year += 2000`. -/
def fixYear (y : Nat) : Nat := if y < 100 then y + 2000 else y

/-- Digit-run accumulator for `re.findall(r"\d+", s)`. -/
def digitRunsAux : List Char → List Char → List (List Char)
  | acc, [] => if acc = [] then [] else [acc.reverse]
  | acc, c :: cs =>
    if c.isDigit then digitRunsAux (c :: acc) cs
    else (if acc = [] then [] else [acc.reverse]) ++ digitRunsAux [] cs

/-- `re.findall(r"\d+", s)`: the maximal digit runs of `s`, in order. -/
def digitRuns (l : List Char) : List (List Char) := digitRunsAux [] l

/-- Numeric value of a digit run (Python `int(run)`). -/
def digitsToNat (l : List Char) : Nat :=
  l.foldl (fun acc c => 10 * acc + (c.toNat - 48)) 0

/-- Try to read exactly `n` digits at the front of `l`; on success return
their value and the rest of the input. -/
def takeDigits (n : Nat) (l : List Char) : Option (Nat × List Char) :=
  if (l.take n).length = n ∧ (l.take n).all Char.isDigit then
    some (digitsToNat (l.take n), l.drop n)
  else none

/-- Python `abs` on rationals, written out so that it evaluates by
kernel reduction. -/
def pyAbs (x : ℚ) : ℚ := if x < 0 then -x else x

/-- The separator class (slash or hyphen) of the date regex. -/
def isSep (c : Char) : Bool := c = '/' || c = '-'

/-- Match `(\d{1,2}) sep (\d{1,2}) sep (\d{2,4})` (sep one of slash, hyphen) anchored at the start of
`l`, with the regex's greedy preference (longer digit groups first). -/
def matchDateAt (l : List Char) : Option (Nat × Nat × Nat) :=
  [2, 1].findSome? fun a =>
    (takeDigits a l).bind fun p1 =>
      match p1.2 with
      | [] => none
      | s1 :: r2 =>
        if isSep s1 then
          [2, 1].findSome? fun b =>
            (takeDigits b r2).bind fun p2 =>
              match p2.2 with
              | [] => none
              | s2 :: r4 =>
                if isSep s2 then
                  [4, 3, 2].findSome? fun c =>
                    (takeDigits c r4).map fun p3 => (p1.1, p2.1, p3.1)
                else none
        else none

/-- `re.search` for the date pattern: leftmost match wins. -/
def searchDate : List Char → Option (Nat × Nat × Nat)
  | [] => none
  | c :: rest =>
    match matchDateAt (c :: rest) with
    | some r => some r
    | none => searchDate rest

/-- The `strptime` format list tried by `extract_excel_date`, in order. -/
def strptime_formats : List String :=
  ["%d/%m/%Y", "%d/%m/%Y %H:%M:%S", "%Y-%m-%d", "%Y-%m-%d %H:%M:%S",
   "%d-%m-%Y", "%m/%d/%Y"]

/-- The string branch of `extract_excel_date`: pandas first, then the
`strptime` format loop, then the regex search (day, month, year groups),
then the digit-run fallback; `none` when everything fails (including a
`datetime` constructor exception on an out-of-range extracted date). -/
def parse_date_string (pdParse : String → Option Int)
    (stParse : String → String → Option Int) (s : String) : Option Int :=
  match pdParse s with
  | some t => some t
  | none =>
    match strptime_formats.findSome? (fun fmt => stParse fmt s) with
    | some t => some t
    | none =>
      match searchDate s.data with
      | some (d, m, y) => mkDatetime (fixYear y) m d
      | none =>
        match (digitRuns s.data).map digitsToNat with
        | d :: m :: y :: _ => mkDatetime (fixYear y) m d
        | _ => none

/-- The Excel serial epoch `1899-12-30` as a day number. -/
def excelEpoch : Int := daysFromCivil 1899 12 30

/-- `extract_excel_date` from `src/app.py`: a positive number is an Excel
serial (epoch `1899-12-30` plus `int(x)`, i.e. plus `⌊x⌋` for positive
`x`); a string goes through the parsing pipeline, yielding a date or
`None`; every other value (`None`, a non-positive number, an
already-converted date) is returned unchanged. -/
def extract_excel_date (pdParse : String → Option Int)
    (stParse : String → String → Option Int) : PyVal → PyVal
  | PyVal.num x => if 0 < x then PyVal.date (excelEpoch + x.floor) else PyVal.num x
  | PyVal.text s =>
    match parse_date_string pdParse stParse s with
    | some t => PyVal.date t
    | none => PyVal.null
  | v => v

/-- A stand-in library parser that parses nothing, used to instantiate
the parser parameters at concrete inputs whose behaviour does not depend
on them. -/
def pdParseNone : String → Option Int := fun _ => none

/-- A stand-in `strptime` that parses nothing. -/
def stParseNone : String → String → Option Int := fun _ _ => none

example : extract_excel_date pdParseNone stParseNone (PyVal.text "hello") = PyVal.null := by decide
example : extract_excel_date pdParseNone stParseNone (PyVal.num (-5)) = PyVal.num (-5) := by decide
example : extract_excel_date pdParseNone stParseNone (PyVal.text "7/3/2021") =
    PyVal.date (daysFromCivil 2021 3 7) := by decide

/-! ## Transactions and the Verifier (src/app.py lines 742-836)

A `Txn` is one record of `parse_collection_transactions`'s output, with
the fields `verify_transactions` and `match_transactions_to_units` read:
the (converted) `date` value, the numeric `amount`, the Dr/Cr `type`
token, the `description` cell, and the `normalized_sales_tag` (absent —
pandas `NaN` — when the row had no usable sales tag).  The
account-identity fields (`account_name`, `account_number`, `row`) are
carried by the code but never read by the matching/verification logic,
so they are omitted here. -/

structure Txn where
  date : PyVal
  amount : ℚ
  type_tok : Option String
  description : Option PyVal
  normalizedTag : Option String
deriving DecidableEq, Repr

/-- One entry of `bounced_transactions` as built at src/app.py lines
801-808: the credit's date and amount, the matching debit's date and
amount, and the debit's description (`.get("description", "")`). -/
structure Bounce where
  credit_date : Int
  credit_amount : ℚ
  debit_date : PyVal
  debit_amount : ℚ
  description : PyVal
deriving DecidableEq, Repr

/-- `t.get("type", "").upper() == "C"` (src/app.py line 774). -/
def isCreditTxn (t : Txn) : Bool := ⟨upperL (t.type_tok.getD "").data⟩ = ("C" : String)

/-- `t.get("type", "").upper() == "D"` (src/app.py line 775). -/
def isDebitTxn (t : Txn) : Bool := ⟨upperL (t.type_tok.getD "").data⟩ = ("D" : String)

/-- The credit transactions of a matched list (line 774). -/
def credit_transactions (ts : List Txn) : List Txn := ts.filter isCreditTxn

/-- The debit transactions of a matched list (line 775). -/
def debit_transactions (ts : List Txn) : List Txn := ts.filter isDebitTxn

/-- `total_credits` (line 777). -/
def total_credits (ts : List Txn) : ℚ :=
  ((credit_transactions ts).map (fun t => t.amount)).sum

/-- `total_debits` (line 778). -/
def total_debits (ts : List Txn) : ℚ :=
  ((debit_transactions ts).map (fun t => t.amount)).sum

/-- `actual_amount = total_credits - total_debits` (line 781). -/
def actual_amount (ts : List Txn) : ℚ := total_credits ts - total_debits ts

/-- The debit-side filter of the bounce search (lines 791-799): the debit
has a genuine datetime, it falls on or after the credit's date and at
most 7 days after it, and its amount differs from the credit's by less
than 0.01. -/
def bounce_cond (crDate : Int) (crAmount : ℚ) (d : Txn) : Bool :=
  match d.date with
  | PyVal.date dd => crDate ≤ dd && dd ≤ crDate + 7 && pyAbs (d.amount - crAmount) < 1 / 100
  | _ => false

/-- Build the recorded bounce entry (lines 801-808). -/
def mkBounce (crDate : Int) (crAmount : ℚ) (d : Txn) : Bounce :=
  { credit_date := crDate, credit_amount := crAmount, debit_date := d.date,
    debit_amount := d.amount, description := d.description.getD (PyVal.text "") }

/-- `bounced_transactions` (lines 783-808): for every credit transaction
whose date is a genuine datetime, every debit passing `bounce_cond` is
recorded; a credit whose date is `None` (or any non-datetime) yields no
pairs, because the comprehension's `isinstance` test on the credit date
fails for every candidate debit. -/
def bounced_transactions (ts : List Txn) : List Bounce :=
  (credit_transactions ts).flatMap fun c =>
    match c.date with
    | PyVal.date cd =>
      ((debit_transactions ts).filter (bounce_cond cd c.amount)).map (mkBounce cd c.amount)
    | _ => []

/-- The per-unit `VerificationResult` fields computed by
`verify_transactions` (lines 810-834) that the claims concern. -/
structure VerificationResult where
  expected_amount : ℚ
  actual_amount : ℚ
  amount_match : Bool
  total_credits : ℚ
  total_debits : ℚ
  transaction_count : Nat
  bounced : List Bounce
  has_bounced : Bool
  status : String
deriving DecidableEq, Repr

/-- The per-unit body of `verify_transactions` (lines 773-834): totals,
net amount, bounce detection, the 1-unit amount tolerance, and the
status assignment `status = "verified" if amount_match and not
bounced_transactions else "warning"` overridden to `"error"` when
`unit_transactions and not amount_match`. -/
def verify_unit (expected : ℚ) (ts : List Txn) : VerificationResult :=
  let amount_match : Bool := pyAbs (actual_amount ts - expected) ≤ 1
  let bounced := bounced_transactions ts
  let status0 : String := if amount_match ∧ bounced = [] then "verified" else "warning"
  let status : String := if ts ≠ [] ∧ ¬(amount_match = true) then "error" else status0
  { expected_amount := expected
    actual_amount := actual_amount ts
    amount_match := amount_match
    total_credits := total_credits ts
    total_debits := total_debits ts
    transaction_count := ts.length
    bounced := bounced
    has_bounced := bounced.length > 0
    status := status }

/-- A credit transaction literal used in concrete scenarios. -/
def mkCreditTxn (day : Int) (a : ℚ) : Txn :=
  { date := PyVal.date day, amount := a, type_tok := some "C",
    description := none, normalizedTag := none }

/-- A debit transaction literal used in concrete scenarios. -/
def mkDebitTxn (day : Int) (a : ℚ) : Txn :=
  { date := PyVal.date day, amount := a, type_tok := some "D",
    description := none, normalizedTag := none }

example : (verify_unit 500000 [mkCreditTxn 0 500000]).status = "verified" := by
  with_unfolding_all decide
example : (verify_unit 500000 [mkCreditTxn 0 500000, mkDebitTxn 2 500000]).status = "error" := by
  with_unfolding_all decide
example : (verify_unit 1 []).status = "verified" := by with_unfolding_all decide
example : (verify_unit 300000 []).status = "warning" := by with_unfolding_all decide
example : (bounced_transactions [mkCreditTxn 0 500000, mkDebitTxn 3 500000]).length = 1 := by
  with_unfolding_all decide
example : (bounced_transactions [mkCreditTxn 0 500000, mkDebitTxn 8 500000]).length = 0 := by
  with_unfolding_all decide

/-! ## The Matcher: `match_transactions_to_units` (src/app.py lines 674-740) -/

/-- `normalized_sales_tag` containment test with pandas `na=False`
semantics: a transaction whose tag is missing (`NaN`) never matches. -/
def tagHas (sub : String) (t : Txn) : Bool :=
  match t.normalizedTag with
  | some s => containsS s sub
  | none => false

/-- The dedup-append loop of the fallback tiers (lines 719-721, 731-733):
append each candidate whose `normalized_sales_tag` is not already among
the collected matches' tags. -/
def tier_merge (acc : List Txn) (cands : List Txn) : List Txn :=
  cands.foldl
    (fun ms m => if (ms.map (fun t => t.normalizedTag)).contains m.normalizedTag then ms
                 else ms ++ [m]) acc

/-- Python `normalized_unit.split("-")[-1]`: the segment after the last
hyphen. -/
def afterLastHyphen (l : List Char) : List Char :=
  (l.reverse.takeWhile (fun c => c ≠ '-')).reverse

/-- The three matching tiers for one unit (lines 704-733): direct match
on the normalized tag; if the unit id starts with `CA`, substring match
on the id without the prefix; if the id has a hyphen and a numeric part
after the last hyphen, substring match on that numeric part.  Tiers 2
and 3 deduplicate against the running match list by normalized tag. -/
def unit_matches (txns : List Txn) (nu : String) : List Txn :=
  let direct := txns.filter (fun t => t.normalizedTag = some nu)
  let m2 :=
    if startsWithCA nu.data then tier_merge direct (txns.filter (tagHas ⟨nu.data.drop 2⟩))
    else direct
  if '-' ∈ nu.data then
    let np := afterLastHyphen nu.data
    if isdigitL np then tier_merge m2 (txns.filter (tagHas ⟨np⟩)) else m2
  else m2

/-- `match_transactions_to_units` (lines 692-740): for each registry unit
with a truthy unit number, collect the tiered matches against the
normalized unit id; a unit is entered into the mapping only when
`matches` is non-empty (`if matches:` at line 736). -/
def match_transactions_to_units (units : List String) (txns : List Txn) :
    List (String × List Txn) :=
  units.filterMap fun u =>
    if u = "" then none
    else
      let ms := unit_matches txns (normalize_unit_number u)
      if ms = [] then none else some (u, ms)

/-- A tagged credit transaction literal for matcher scenarios. -/
def mkTaggedTxn (tag : String) (a : ℚ) : Txn :=
  { date := PyVal.date 0, amount := a, type_tok := some "C",
    description := none, normalizedTag := some (normalize_unit_number tag) }

example :
    match_transactions_to_units ["CA04-402"] [mkTaggedTxn "CA 04-402" 1] =
      [("CA04-402", [mkTaggedTxn "CA 04-402" 1])] := by with_unfolding_all decide
example : match_transactions_to_units ["CA04-402"] [] = [] := by with_unfolding_all decide

/-! ## The Sheet Locator (src/app.py lines 311-353)

A sheet is its list of rows (each row a list of cell values); a workbook
is an ordered list of named sheets. -/

/-- `" ".join(str(cell.value) for cell in row if cell.value)` (lines
326, 348). -/
def rowText (row : List PyVal) : String :=
  String.intercalate " " (row.filterMap fun v => if pyTruthy v then some (pyStr v) else none)

/-- `identify_sales_master_sheet` (lines 311-331): exact name, then a
name containing both `Annex` and `Sales`, then the first sheet whose
first 3 rows contain both `Unit Number` and `Name of Customer` in one
row's joined text, then — last resort — the workbook's first sheet
(`None` only for an empty workbook). -/
def identify_sales_master_sheet (wb : List (String × List (List PyVal))) : Option String :=
  if "Annex - Sales Master" ∈ wb.map Prod.fst then some "Annex - Sales Master"
  else
    match (wb.map Prod.fst).find? (fun n => containsS n "Annex" && containsS n "Sales") with
    | some n => some n
    | none =>
      match wb.find? (fun p => (p.2.take 3).any fun row =>
          containsS (rowText row) "Unit Number" && containsS (rowText row) "Name of Customer") with
      | some p => some p.1
      | none => (wb.map Prod.fst).head?

/-- `identify_collection_sheet` (lines 333-353): exact name, then a name
containing `Main Collection`, then the first sheet whose first 10 rows
mention the phase label, else `None`. -/
def identify_collection_sheet (wb : List (String × List (List PyVal))) : Option String :=
  if "Main Collection AC P1_P2_P3" ∈ wb.map Prod.fst then some "Main Collection AC P1_P2_P3"
  else
    match (wb.map Prod.fst).find? (fun n => containsS n "Main Collection") with
    | some n => some n
    | none =>
      match wb.find? (fun p => (p.2.take 10).any fun row =>
          containsS (rowText row) "Main Collection Escrow A/c Phase") with
      | some p => some p.1
      | none => none

example : identify_sales_master_sheet [("Foo", [[]])] = some "Foo" := by decide
example : identify_collection_sheet [("Foo", [[]])] = none := by decide

/-! ## The Phase Segmenter: `find_phase_transitions` (src/app.py lines 466-557)

Only the row-range structure is embedded: the nested searches for the
account number and the header row (lines 489-536) read cells but have no
effect on the `row`/`end_row` fields the segmentation claims are about,
so a phase is represented by its `(row, end_row)` pair. -/

/-- Does this cell trigger a phase transition (lines 486-488): truthy and
its string form contains the phase label? -/
def isPhaseLabelCell (v : PyVal) : Bool :=
  pyTruthy v && containsS (pyStr v) "Main Collection Escrow A/c Phase"

/-- The 1-based rows at which phase transitions are recorded: the scan
runs `r` over `range(min(max_row, 5000))` and `c` over the first 3
columns, appending `r + 1` for every matching cell (so one sheet row can
be appended more than once if the label sits in several of its columns). -/
def phase_rows (sheet : List (List PyVal)) : List Nat :=
  (List.range (min sheet.length 5000)).flatMap fun r =>
    (List.range 3).filterMap fun c =>
      match (sheet.get? r).bind (fun row => row.get? c) with
      | some v => if isPhaseLabelCell v then some (r + 1) else none
      | none => none

/-- The end-row assignment loop (lines 547-551): every transition ends
one row before the next transition's row; the last ends at `max_row`. -/
def assignEnds : List Nat → Nat → List (Nat × Nat)
  | [], _ => []
  | [a], m => [(a, m)]
  | a :: b :: rest, m => (a, b - 1) :: assignEnds (b :: rest) m

/-- `find_phase_transitions`, reduced to its `(row, end_row)` ranges. -/
def find_phase_transitions (sheet : List (List PyVal)) : List (Nat × Nat) :=
  assignEnds (phase_rows sheet) sheet.length

example :
    find_phase_transitions
      [[PyVal.text "Main Collection Escrow A/c Phase 1"],
       [PyVal.text "x"], [PyVal.text "Main Collection Escrow A/c Phase 2"],
       [PyVal.text "y"]] = [(1, 2), (3, 4)] := by decide

/-! ## The Transaction Extractor: `parse_collection_transactions`
(src/app.py lines 607-672)

One ledger row is represented by the cell values at the phase's mapped
offsets.  The retention test (lines 630-634) and the field coercions
(lines 641-661) are embedded; the surrounding per-account iteration just
concatenates per-row results. -/

/-- The cells of one ledger data row, at the phase's mapped offsets. -/
structure Row where
  dateCell : PyVal
  amountCell : PyVal
  typeCell : PyVal
  tagCell : PyVal
  descCell : PyVal
deriving DecidableEq, Repr

/-- The per-row body of `parse_collection_transactions`: skip the row
unless the date cell is truthy and the amount cell is a non-zero number;
otherwise build the transaction, converting the date cell through
`extract_excel_date` and normalizing a truthy sales tag. -/
def parse_row (pdParse : String → Option Int) (stParse : String → String → Option Int)
    (r : Row) : Option Txn :=
  if pyTruthy r.dateCell then
    match r.amountCell with
    | PyVal.num x =>
      if x ≠ 0 then
        some
          { date := extract_excel_date pdParse stParse r.dateCell
            amount := x
            type_tok := match r.typeCell with
              | PyVal.null => none
              | v => some (pyStr v)
            description := match r.descCell with
              | PyVal.null => none
              | v => some v
            normalizedTag := match r.tagCell with
              | PyVal.null => none
              | v => if pyStr v = "" then none
                     else some (normalize_unit_number (pyStr v)) }
      else none
    | _ => none
  else none

/-- `parse_collection_transactions` over a phase's data rows. -/
def parse_collection_transactions (pdParse : String → Option Int)
    (stParse : String → String → Option Int) (rows : List Row) : List Txn :=
  rows.filterMap (parse_row pdParse stParse)

example :
    parse_row pdParseNone stParseNone
      { dateCell := PyVal.num (-5), amountCell := PyVal.num 100,
        typeCell := PyVal.null, tagCell := PyVal.null, descCell := PyVal.null } =
      some { date := PyVal.num (-5), amount := 100, type_tok := none,
             description := none, normalizedTag := none } := by with_unfolding_all decide
example :
    parse_row pdParseNone stParseNone
      { dateCell := PyVal.null, amountCell := PyVal.num 100,
        typeCell := PyVal.null, tagCell := PyVal.null, descCell := PyVal.null } = none := by
  with_unfolding_all decide

/-! ## Spec-side comparison definitions -/

/-- Transaction direction, as the spec describes it. -/
inductive Direction where
  | credit : Direction
  | debit : Direction
deriving DecidableEq, Repr

/-- Direction coercion as the code actually performs it (amended spec
wording): a token whose uppercasing is exactly `"C"` is a credit, exactly
`"D"` a debit; any other token — including `"Cr"`, `"CR"`, `"Dr"`,
`"DR"` — is neither, and its transaction is excluded from both sums. -/
def coerce_direction (tok : String) : Option Direction :=
  if (⟨upperL tok.data⟩ : String) = "C" then some Direction.credit
  else if (⟨upperL tok.data⟩ : String) = "D" then some Direction.debit
  else none

/-! ## Theorems: claims C1-C10 -/

section Lemmas

/-- `pyAbs` is even. -/
theorem pyAbs_neg (e : ℚ) : pyAbs (-e) = pyAbs e := by
  unfold pyAbs
  rcases lt_trichotomy e 0 with h | h | h
  · rw [if_neg (by simpa using h.le), if_pos h]
  · subst h; norm_num
  · rw [if_pos (by simpa using h), if_neg (not_lt.mpr h.le), neg_neg]

theorem actual_amount_nil : actual_amount [] = 0 := by
  simp [actual_amount, total_credits, total_debits, credit_transactions, debit_transactions]

theorem bounced_transactions_nil : bounced_transactions [] = [] := rfl

/-- `credit_transactions` through the spec-side direction coercion. -/
theorem credit_transactions_eq (ts : List Txn) :
    credit_transactions ts =
      ts.filter fun t => coerce_direction (t.type_tok.getD "") = some Direction.credit := by
  unfold credit_transactions
  apply List.filter_congr
  intro t _
  unfold isCreditTxn coerce_direction
  by_cases h : (⟨upperL (t.type_tok.getD "").data⟩ : String) = "C" <;> simp [h]

/-- `debit_transactions` through the spec-side direction coercion. -/
theorem debit_transactions_eq (ts : List Txn) :
    debit_transactions ts =
      ts.filter fun t => coerce_direction (t.type_tok.getD "") = some Direction.debit := by
  unfold debit_transactions
  apply List.filter_congr
  intro t _
  unfold isDebitTxn coerce_direction
  by_cases h : (⟨upperL (t.type_tok.getD "").data⟩ : String) = "C"
  · rw [h]; decide
  · by_cases h2 : (⟨upperL (t.type_tok.getD "").data⟩ : String) = "D" <;> simp [h, h2]

end Lemmas

/-- C1 (counterexample): a unit with zero matched transactions and the
non-zero expected amount `1` (absolute value at most 1) is assigned
status `"verified"` by the code, not `"warning"` as the claim states. -/
theorem c1_counterexample :
    (verify_unit 1 []).status = "verified" ∧ ("verified" : String) ≠ "warning" ∧ (1 : ℚ) ≠ 0 := by
  refine ⟨by with_unfolding_all decide, by decide, by norm_num⟩

/-- C1 (amended): status precedence as the code computes it — `"error"`
when matched transactions exist and the amounts do not match (within the
1-unit tolerance); else `"warning"` when bounced pairs exist; else
`"warning"` when no transactions exist and the expected amount differs
from 0 by MORE than the 1-unit tolerance (not merely "is non-zero": a
unit with no transactions and `0 < |expected| ≤ 1` is `"verified"`);
else `"verified"`. -/
theorem c1_status_precedence (e : ℚ) (ts : List Txn) :
    (verify_unit e ts).status =
      if ts ≠ [] ∧ ¬(pyAbs (actual_amount ts - e) ≤ 1) then "error"
      else if bounced_transactions ts ≠ [] then "warning"
      else if ts = [] ∧ 1 < pyAbs e then "warning"
      else "verified" := by
  by_cases hts : ts = []
  · subst hts
    by_cases he : pyAbs e ≤ 1
    · simp [verify_unit, actual_amount_nil, bounced_transactions_nil, pyAbs_neg, he,
        not_lt.mpr he]
    · simp [verify_unit, actual_amount_nil, bounced_transactions_nil, pyAbs_neg, he,
        lt_of_not_le he]
  · by_cases hm : pyAbs (actual_amount ts - e) ≤ 1
    · by_cases hb : bounced_transactions ts = [] <;>
        simp [verify_unit, hts, hm, hb]
    · simp [verify_unit, hts, hm]

/-- C3: `amount_match` is true exactly when `|actualAmount −
expectedAmount| ≤ 1` — a fixed absolute tolerance; in particular with
expected `100000`, actual `100001` matches and actual `100001.01` (a
difference greater than 1) does not. -/
theorem c3_amount_tolerance :
    (∀ (e : ℚ) (ts : List Txn),
      (verify_unit e ts).amount_match = true ↔
        pyAbs ((verify_unit e ts).actual_amount - e) ≤ 1) ∧
    (verify_unit 100000 [mkCreditTxn 0 100001]).amount_match = true ∧
    (verify_unit 100000 [mkCreditTxn 0 (10000101 / 100)]).amount_match = false := by
  refine ⟨fun e ts => ?_, by with_unfolding_all decide, by with_unfolding_all decide⟩
  simp [verify_unit]

/-- C4 (counterexample): a transaction whose direction token is `"CR"`
(or `"DR"`) is counted as neither credit nor debit — `total_credits`
(`total_debits`) over it is `0`, not its amount `100` as the claim's
tolerant-coercion reading requires. -/
theorem c4_counterexample :
    total_credits [{ date := PyVal.date 0, amount := 100, type_tok := some "CR",
                     description := none, normalizedTag := none }] = 0 ∧
    total_debits [{ date := PyVal.date 0, amount := 100, type_tok := some "DR",
                    description := none, normalizedTag := none }] = 0 ∧
    (0 : ℚ) ≠ 100 := by
  refine ⟨by with_unfolding_all decide, by with_unfolding_all decide, by norm_num⟩

/-- C4 (amended): the partition coerces the direction token
case-insensitively but only accepts the exact single-letter tokens
(uppercasing to `"C"` or `"D"`); `totalCredits`/`totalDebits` sum the
amounts of each side and `actualAmount = totalCredits − totalDebits`.
Variant spellings such as `"Cr"`, `"CR"`, `"Dr"`, `"DR"` coerce to
neither direction. -/
theorem c4_direction_partition :
    (∀ (e : ℚ) (ts : List Txn),
      (verify_unit e ts).total_credits =
        ((ts.filter fun t =>
            coerce_direction (t.type_tok.getD "") = some Direction.credit).map
          (fun t => t.amount)).sum ∧
      (verify_unit e ts).total_debits =
        ((ts.filter fun t =>
            coerce_direction (t.type_tok.getD "") = some Direction.debit).map
          (fun t => t.amount)).sum ∧
      (verify_unit e ts).actual_amount =
        (verify_unit e ts).total_credits - (verify_unit e ts).total_debits) ∧
    coerce_direction "c" = some Direction.credit ∧
    coerce_direction "C" = some Direction.credit ∧
    coerce_direction "d" = some Direction.debit ∧
    coerce_direction "D" = some Direction.debit ∧
    coerce_direction "Cr" = none ∧ coerce_direction "CR" = none ∧
    coerce_direction "Dr" = none ∧ coerce_direction "DR" = none := by
  refine ⟨fun e ts => ⟨?_, ?_, rfl⟩, by decide, by decide, by decide, by decide,
    by decide, by decide, by decide, by decide⟩
  · show total_credits ts = _
    unfold total_credits
    rw [credit_transactions_eq]
  · show total_debits ts = _
    unfold total_debits
    rw [debit_transactions_eq]

/-- C2: the recorded bounced pairs are exactly the (credit, debit) pairs
in which both transactions carry genuine dates, the debit's date is on or
after the credit's and at most 7 days after it, and the amounts differ by
less than 0.01; one credit may correlate with several debits and every
such pair is recorded.  Concretely, a credit of amount `A` on day `D`
with an equal debit on day `D+3` produces exactly one bounced pair, and
the same debit on day `D+8` produces none. -/
theorem c2_bounce_characterization :
    (∀ (ts : List Txn) (b : Bounce),
      b ∈ bounced_transactions ts ↔
        ∃ c ∈ credit_transactions ts, ∃ d ∈ debit_transactions ts, ∃ cd dd : Int,
          c.date = PyVal.date cd ∧ d.date = PyVal.date dd ∧
          cd ≤ dd ∧ dd ≤ cd + 7 ∧ pyAbs (d.amount - c.amount) < 1 / 100 ∧
          b = mkBounce cd c.amount d) ∧
    bounced_transactions [mkCreditTxn 0 5, mkDebitTxn 3 5] =
      [{ credit_date := 0, credit_amount := 5, debit_date := PyVal.date 3,
         debit_amount := 5, description := PyVal.text "" }] ∧
    bounced_transactions [mkCreditTxn 0 5, mkDebitTxn 8 5] = [] := by
  refine ⟨fun ts b => ?_, by with_unfolding_all decide, by with_unfolding_all decide⟩
  unfold bounced_transactions
  rw [List.mem_flatMap]
  constructor
  · rintro ⟨c, hc, hb⟩
    rcases hcd : c.date with _ | x | s | cd <;> rw [hcd] at hb
    · exact absurd hb (List.not_mem_nil b)
    · exact absurd hb (List.not_mem_nil b)
    · exact absurd hb (List.not_mem_nil b)
    · rw [List.mem_map] at hb
      obtain ⟨d, hd, hbd⟩ := hb
      rw [List.mem_filter] at hd
      obtain ⟨hdmem, hcond⟩ := hd
      unfold bounce_cond at hcond
      rcases hdd : d.date with _ | y | u | dd <;> rw [hdd] at hcond
      · exact Bool.noConfusion hcond
      · exact Bool.noConfusion hcond
      · exact Bool.noConfusion hcond
      · simp only [Bool.and_eq_true, decide_eq_true_eq] at hcond
        exact ⟨c, hc, d, hdmem, cd, dd, hcd, hdd, hcond.1.1, hcond.1.2, hcond.2, hbd.symm⟩
  · rintro ⟨c, hc, d, hd, cd, dd, hcd, hdd, h1, h2, h3, hb⟩
    refine ⟨c, hc, ?_⟩
    rw [hcd]
    rw [List.mem_map]
    refine ⟨d, ?_, hb.symm⟩
    rw [List.mem_filter]
    refine ⟨hd, ?_⟩
    unfold bounce_cond
    rw [hdd]
    simp only [Bool.and_eq_true, decide_eq_true_eq]
    exact ⟨⟨h1, h2⟩, h3⟩

/-- Is this value a genuinely parsed date (a datetime), as opposed to
`None` or an unconverted raw value? -/
def is_parsed_date : PyVal → Bool
  | PyVal.date _ => true
  | _ => false

/-- C5 (counterexample): a ledger row whose date cell holds the truthy
but unparseable value `-5` (the date converter returns non-positive
numbers unchanged) and whose amount cell holds `100` is NOT skipped: it
is retained with a stored date that is not a parsed date, refuting both
"a row whose date cell is unparseable is skipped" and "every retained
Transaction has a non-null parsed date". -/
theorem c5_counterexample :
    parse_row pdParseNone stParseNone
      { dateCell := PyVal.num (-5), amountCell := PyVal.num 100,
        typeCell := PyVal.null, tagCell := PyVal.null, descCell := PyVal.null } =
      some { date := PyVal.num (-5), amount := 100, type_tok := none,
             description := none, normalizedTag := none } ∧
    is_parsed_date (PyVal.num (-5)) = false ∧
    (PyVal.num (-5) ≠ PyVal.null) := by
  refine ⟨by with_unfolding_all decide, by decide, by with_unfolding_all decide⟩

/-- C5 (amended): a row is retained iff its date cell is truthy
(non-empty and non-zero) and its amount cell is a non-zero number; a
retained transaction's amount is that non-zero number, and its stored
date is whatever `extract_excel_date` returns for the raw date cell —
which may be `None` (an unparseable string) or an unconverted raw value
(e.g. a non-positive number), the row being retained regardless. -/
theorem c5_retention (pd : String → Option Int)
    (st : String → String → Option Int) (r : Row) :
    ((parse_row pd st r).isSome = true ↔
      pyTruthy r.dateCell = true ∧ ∃ x : ℚ, r.amountCell = PyVal.num x ∧ x ≠ 0) ∧
    (∀ t : Txn, parse_row pd st r = some t →
      t.amount ≠ 0 ∧ r.amountCell = PyVal.num t.amount ∧
      t.date = extract_excel_date pd st r.dateCell) := by
  constructor
  · unfold parse_row
    by_cases hd : pyTruthy r.dateCell
    · rw [if_pos hd]
      rcases ha : r.amountCell with _ | x | sa | da
      · simp
      · dsimp only
        by_cases hx : x ≠ 0
        · rw [if_pos hx]
          simp only [Option.isSome_some, true_iff]
          exact ⟨hd, x, rfl, hx⟩
        · rw [if_neg hx]
          simp [hd, not_not.mp hx]
      · simp
      · simp
    · rw [if_neg hd]
      simp [hd]
  · intro t ht
    unfold parse_row at ht
    by_cases hd : pyTruthy r.dateCell
    · rw [if_pos hd] at ht
      rcases ha : r.amountCell with _ | x | sa | da <;> rw [ha] at ht
      · exact Option.noConfusion ht
      · dsimp only at ht
        by_cases hx : x ≠ 0
        · rw [if_pos hx] at ht
          obtain rfl := Option.some.inj ht
          exact ⟨hx, rfl, rfl⟩
        · rw [if_neg hx] at ht
          exact Option.noConfusion ht
      · exact Option.noConfusion ht
      · exact Option.noConfusion ht
    · rw [if_neg hd] at ht
      exact Option.noConfusion ht

/-- Witness for C5 (amended), at a concrete well-formed row. -/
theorem c5_retention_witness :
    parse_row pdParseNone stParseNone
        { dateCell := PyVal.date 10, amountCell := PyVal.num 7,
          typeCell := PyVal.null, tagCell := PyVal.null, descCell := PyVal.null } =
      some { date := PyVal.date 10, amount := 7, type_tok := none,
             description := none, normalizedTag := none } ∧
    (7 : ℚ) ≠ 0 ∧
    PyVal.date 10 =
      extract_excel_date pdParseNone stParseNone (PyVal.date 10) := by
  have hsome :
      parse_row pdParseNone stParseNone
          { dateCell := PyVal.date 10, amountCell := PyVal.num 7,
            typeCell := PyVal.null, tagCell := PyVal.null, descCell := PyVal.null } =
        some { date := PyVal.date 10, amount := 7, type_tok := none,
               description := none, normalizedTag := none } := by
    with_unfolding_all decide
  have h := (c5_retention pdParseNone stParseNone
      { dateCell := PyVal.date 10, amountCell := PyVal.num 7,
        typeCell := PyVal.null, tagCell := PyVal.null, descCell := PyVal.null }).2
      _ hsome
  exact ⟨hsome, h.1, h.2.2.symm⟩

/-- C6 (counterexample): a registry unit with zero matched transactions
is NOT recorded in the Matcher's output mapping — the mapping for one
unit and an empty ledger is empty, so the unit is not among its keys. -/
theorem c6_counterexample :
    match_transactions_to_units ["CA04-402"] [] = [] ∧
    ((match_transactions_to_units ["CA04-402"] []).map Prod.fst).contains "CA04-402"
      = false := by
  refine ⟨by with_unfolding_all decide, by with_unfolding_all decide⟩

/-- C6 (amended): the Matcher enters a unit into its output mapping only
when its tiered matches are non-empty (`if matches:` at src/app.py line
736): every entry of the mapping has a non-empty transaction list and a
key drawn from the registry; zero-match units are omitted (the Verifier
later reads them back as empty via `.get(unit_number, [])`). -/
theorem c6_mapping_nonempty (units : List String) (txns : List Txn)
    (p : String × List Txn) (hp : p ∈ match_transactions_to_units units txns) :
    p.2 ≠ [] ∧ p.1 ∈ units := by
  unfold match_transactions_to_units at hp
  rw [List.mem_filterMap] at hp
  obtain ⟨u, hu, heq⟩ := hp
  by_cases h1 : u = ""
  · rw [if_pos h1] at heq
    exact Option.noConfusion heq
  · rw [if_neg h1] at heq
    by_cases h2 : unit_matches txns (normalize_unit_number u) = []
    · rw [if_pos h2] at heq
      exact Option.noConfusion heq
    · rw [if_neg h2] at heq
      obtain rfl := Option.some.inj heq
      exact ⟨h2, hu⟩

/-- Witness for C6 (amended), at a concrete matched unit. -/
theorem c6_mapping_nonempty_witness :
    (("CA04-402", [mkTaggedTxn "CA 04-402" 1]) ∈
        match_transactions_to_units ["CA04-402"] [mkTaggedTxn "CA 04-402" 1]) ∧
    ([mkTaggedTxn "CA 04-402" 1] ≠ ([] : List Txn) ∧
      "CA04-402" ∈ ["CA04-402"]) := by
  have hmem : ("CA04-402", [mkTaggedTxn "CA 04-402" 1]) ∈
      match_transactions_to_units ["CA04-402"] [mkTaggedTxn "CA 04-402" 1] := by
    with_unfolding_all decide
  exact ⟨hmem, c6_mapping_nonempty _ _ _ hmem⟩

/-- C7 (counterexample): in a workbook with a single sheet `"Foo"`
matching none of the locator signals, the registry locator does NOT
return a not-found signal — it falls back to the first sheet — while the
ledger locator does return `none`. -/
theorem c7_counterexample :
    identify_sales_master_sheet [("Foo", [[]])] = some "Foo" ∧
    (some "Foo" ≠ (none : Option String)) ∧
    identify_collection_sheet [("Foo", [[]])] = none := by
  refine ⟨by decide, by decide, by decide⟩

/-- C7 (amended): when no sheet satisfies any signal, the ledger
(collection) locator returns the not-found signal `none`, but the
registry (sales-master) locator instead returns the workbook's first
sheet as a last resort, returning `none` only when the workbook has no
sheets at all. -/
theorem c7_locator_fallback (wb : List (String × List (List PyVal)))
    (hc1 : "Main Collection AC P1_P2_P3" ∉ wb.map Prod.fst)
    (hc2 : ∀ n ∈ wb.map Prod.fst, containsS n "Main Collection" = false)
    (hc3 : ∀ p ∈ wb, ∀ row ∈ p.2.take 10,
      containsS (rowText row) "Main Collection Escrow A/c Phase" = false)
    (hs1 : "Annex - Sales Master" ∉ wb.map Prod.fst)
    (hs2 : ∀ n ∈ wb.map Prod.fst,
      (containsS n "Annex" && containsS n "Sales") = false)
    (hs3 : ∀ p ∈ wb, ∀ row ∈ p.2.take 3,
      (containsS (rowText row) "Unit Number" &&
        containsS (rowText row) "Name of Customer") = false) :
    identify_collection_sheet wb = none ∧
    identify_sales_master_sheet wb = (wb.map Prod.fst).head? := by
  constructor
  · unfold identify_collection_sheet
    rw [if_neg hc1]
    have h2 : (wb.map Prod.fst).find? (fun n => containsS n "Main Collection") = none :=
      List.find?_eq_none.mpr fun n hn => by simp [hc2 n hn]
    rw [h2]
    have h3 : wb.find? (fun p => (p.2.take 10).any fun row =>
        containsS (rowText row) "Main Collection Escrow A/c Phase") = none := by
      refine List.find?_eq_none.mpr fun p hp => ?_
      simp only [List.any_eq_true, not_exists, not_and, Bool.not_eq_true]
      intro row hrow
      exact hc3 p hp row hrow
    rw [h3]
  · unfold identify_sales_master_sheet
    rw [if_neg hs1]
    have h2 : (wb.map Prod.fst).find?
        (fun n => containsS n "Annex" && containsS n "Sales") = none :=
      List.find?_eq_none.mpr fun n hn => by simp [hs2 n hn]
    rw [h2]
    have h3 : wb.find? (fun p => (p.2.take 3).any fun row =>
        containsS (rowText row) "Unit Number" &&
          containsS (rowText row) "Name of Customer") = none := by
      refine List.find?_eq_none.mpr fun p hp => ?_
      simp only [List.any_eq_true, not_exists, not_and, Bool.not_eq_true]
      intro row hrow
      exact hs3 p hp row hrow
    rw [h3]

/-- Witness for C7 (amended), at the concrete one-sheet workbook. -/
theorem c7_locator_fallback_witness :
    identify_collection_sheet [("Foo", [[]])] = none ∧
    identify_sales_master_sheet [("Foo", [[]])] =
      (([("Foo", ([[]] : List (List PyVal)))].map Prod.fst).head?) :=
  c7_locator_fallback [("Foo", ([[]] : List (List PyVal)))]
    (by decide) (by decide) (by decide) (by decide) (by decide) (by decide)

section SegmenterLemmas

/-- Every start row produced by `assignEnds` is one of the input rows. -/
theorem assignEnds_fst_mem :
    ∀ (rows : List Nat) (m : Nat) (p : Nat × Nat), p ∈ assignEnds rows m → p.1 ∈ rows
  | [], _, p => by simp [assignEnds]
  | [a], m, p => by
    intro hp
    rw [show assignEnds [a] m = [(a, m)] from rfl, List.mem_singleton] at hp
    subst hp
    simp
  | a :: b :: rest, m, p => by
    intro hp
    rw [show assignEnds (a :: b :: rest) m = (a, b - 1) :: assignEnds (b :: rest) m from rfl,
      List.mem_cons] at hp
    rcases hp with rfl | hp
    · simp
    · exact List.mem_cons_of_mem a (assignEnds_fst_mem (b :: rest) m p hp)

/-- The head of `assignEnds` on a non-empty list starts at the first row. -/
theorem assignEnds_head_fst (x : Nat) (xs : List Nat) (m : Nat) :
    ∃ e rest, assignEnds (x :: xs) m = (x, e) :: rest := by
  cases xs with
  | nil => exact ⟨m, [], rfl⟩
  | cons b bs => exact ⟨b - 1, assignEnds (b :: bs) m, rfl⟩

/-- Consecutive phases abut: each end row is one less than the next
start row (`end_row = next.row - 1` at src/app.py line 549, read back as
`next.row = end_row + 1` for 1-based positive rows). -/
theorem assignEnds_chain :
    ∀ (rows : List Nat) (m : Nat), (∀ x ∈ rows, 1 ≤ x) →
      (assignEnds rows m).Chain' (fun p q => q.1 = p.2 + 1)
  | [], _, _ => List.chain'_nil
  | [a], m, _ => List.chain'_singleton _
  | a :: b :: rest, m, hpos => by
    rw [show assignEnds (a :: b :: rest) m = (a, b - 1) :: assignEnds (b :: rest) m from rfl]
    obtain ⟨e, tl, heq⟩ := assignEnds_head_fst b rest m
    rw [heq, List.chain'_cons]
    constructor
    · have hb : 1 ≤ b := hpos b (by simp)
      simp
      omega
    · rw [← heq]
      exact assignEnds_chain (b :: rest) m (fun x hx => hpos x (List.mem_cons_of_mem a hx))

/-- Each produced range satisfies `startRow ≤ endRow`, provided the rows
are strictly increasing and bounded by the sheet's last row. -/
theorem assignEnds_start_le_end :
    ∀ (rows : List Nat) (m : Nat), rows.Pairwise (· < ·) → (∀ x ∈ rows, x ≤ m) →
      ∀ p ∈ assignEnds rows m, p.1 ≤ p.2
  | [], _, _, _, p => by simp [assignEnds]
  | [a], m, _, hbd, p => by
    intro hp
    rw [show assignEnds [a] m = [(a, m)] from rfl, List.mem_singleton] at hp
    subst hp
    exact hbd a (by simp)
  | a :: b :: rest, m, hsort, hbd, p => by
    intro hp
    rw [show assignEnds (a :: b :: rest) m = (a, b - 1) :: assignEnds (b :: rest) m from rfl,
      List.mem_cons] at hp
    rcases hp with rfl | hp
    · have hab : a < b := (List.pairwise_cons.mp hsort).1 b (by simp)
      simp
      omega
    · exact assignEnds_start_le_end (b :: rest) m (List.pairwise_cons.mp hsort).2
        (fun x hx => hbd x (List.mem_cons_of_mem a hx)) p hp

/-- Every produced end row is at most the sheet's last row. -/
theorem assignEnds_end_le :
    ∀ (rows : List Nat) (m : Nat), (∀ x ∈ rows, x ≤ m) →
      ∀ p ∈ assignEnds rows m, p.2 ≤ m
  | [], _, _, p => by simp [assignEnds]
  | [a], m, _, p => by
    intro hp
    rw [show assignEnds [a] m = [(a, m)] from rfl, List.mem_singleton] at hp
    subst hp
    simp
  | a :: b :: rest, m, hbd, p => by
    intro hp
    rw [show assignEnds (a :: b :: rest) m = (a, b - 1) :: assignEnds (b :: rest) m from rfl,
      List.mem_cons] at hp
    rcases hp with rfl | hp
    · have hb : b ≤ m := hbd b (by simp)
      simp
      omega
    · exact assignEnds_end_le (b :: rest) m
        (fun x hx => hbd x (List.mem_cons_of_mem a hx)) p hp

/-- The last produced range ends exactly at the sheet's last row. -/
theorem assignEnds_getLast :
    ∀ (rows : List Nat) (m : Nat) (q : Nat × Nat),
      (assignEnds rows m).getLast? = some q → q.2 = m
  | [], _, q => by simp [assignEnds]
  | [a], m, q => by
    intro h
    rw [show assignEnds [a] m = [(a, m)] from rfl] at h
    obtain rfl : (a, m) = q := by simpa using h
    rfl
  | a :: b :: rest, m, q => by
    intro h
    apply assignEnds_getLast (b :: rest) m q
    obtain ⟨e, tl, heq⟩ := assignEnds_head_fst b rest m
    rw [show assignEnds (a :: b :: rest) m = (a, b - 1) :: assignEnds (b :: rest) m from rfl,
      heq, List.getLast?_cons_cons] at h
    rwa [heq]

/-- Distinct phases are non-overlapping: an earlier range ends strictly
before a later range starts. -/
theorem assignEnds_pairwise :
    ∀ (rows : List Nat) (m : Nat), rows.Pairwise (· < ·) →
      (assignEnds rows m).Pairwise (fun p q => p.2 < q.1)
  | [], _, _ => List.Pairwise.nil
  | [a], m, _ => List.pairwise_singleton _ _
  | a :: b :: rest, m, hsort => by
    have htail : (b :: rest).Pairwise (fun x y => x < y) := (List.pairwise_cons.mp hsort).2
    rw [show assignEnds (a :: b :: rest) m = (a, b - 1) :: assignEnds (b :: rest) m from rfl,
      List.pairwise_cons]
    refine ⟨?_, assignEnds_pairwise (b :: rest) m htail⟩
    intro q hq
    have hq1 : q.1 ∈ b :: rest := assignEnds_fst_mem (b :: rest) m q hq
    have hbq : b ≤ q.1 := by
      rcases List.mem_cons.mp hq1 with h | h
      · omega
      · exact le_of_lt ((List.pairwise_cons.mp htail).1 q.1 h)
    have hb1 : 0 < b := by
      have := (List.pairwise_cons.mp hsort).1 b (by simp)
      omega
    simp
    omega

/-- Joint coverage with no gaps: every row from the first phase's start
to the sheet's last row lies in some produced range. -/
theorem assignEnds_cover :
    ∀ (rows : List Nat) (m n h0 : Nat), rows.head? = some h0 →
      h0 ≤ n → n ≤ m → ∃ p ∈ assignEnds rows m, p.1 ≤ n ∧ n ≤ p.2 := by
  intro rows
  induction rows with
  | nil => intro m n h0 hh _ _; exact absurd hh (by simp)
  | cons a tail ih =>
    intro m n h0 hh h1 h2
    have ha0 : a = h0 := by simpa using hh
    subst ha0
    cases tail with
    | nil => exact ⟨(a, m), by simp [assignEnds], h1, h2⟩
    | cons b rest =>
      by_cases hn : n ≤ b - 1
      · refine ⟨(a, b - 1), ?_, h1, hn⟩
        rw [show assignEnds (a :: b :: rest) m
            = (a, b - 1) :: assignEnds (b :: rest) m from rfl]
        simp
      · have hbn : b ≤ n := by omega
        obtain ⟨p, hp, hp1, hp2⟩ := ih m n b rfl hbn h2
        refine ⟨p, ?_, hp1, hp2⟩
        rw [show assignEnds (a :: b :: rest) m
            = (a, b - 1) :: assignEnds (b :: rest) m from rfl]
        exact List.mem_cons_of_mem _ hp

/-- Every recorded phase row is between 1 and the sheet's last row. -/
theorem phase_rows_bounds (sheet : List (List PyVal)) :
    ∀ x ∈ phase_rows sheet, 1 ≤ x ∧ x ≤ sheet.length := by
  intro x hx
  unfold phase_rows at hx
  rw [List.mem_flatMap] at hx
  obtain ⟨r, hr, hx2⟩ := hx
  rw [List.mem_range] at hr
  rw [List.mem_filterMap] at hx2
  obtain ⟨c, _, hc⟩ := hx2
  have hr2 : r < sheet.length :=
    lt_of_lt_of_le hr (min_le_left sheet.length 5000)
  rcases hv : (sheet.get? r).bind (fun row => row.get? c) with _ | v <;> rw [hv] at hc <;>
    dsimp only at hc
  · exact Option.noConfusion hc
  · by_cases hl : isPhaseLabelCell v
    · rw [if_pos hl] at hc
      obtain rfl := Option.some.inj hc
      omega
    · rw [if_neg hl] at hc
      exact Option.noConfusion hc

end SegmenterLemmas

/-- A ledger sheet whose first row carries the phase label in two of the
scanned columns: the scan records two transitions at the same row. -/
def dupLabelSheet : List (List PyVal) :=
  [[PyVal.text "Main Collection Escrow A/c Phase 1",
    PyVal.text "Main Collection Escrow A/c Phase 1"]]

/-- C8 (counterexample): on `dupLabelSheet` the segmenter emits the
ranges `[(1, 0), (1, 1)]` — the first recorded phase has
`endRow = 0 < 1 = startRow`, violating the claimed `startRow ≤ endRow`
invariant (the sheet row carrying the label in two scanned columns is
recorded twice). -/
theorem c8_counterexample :
    find_phase_transitions dupLabelSheet = [(1, 0), (1, 1)] ∧
    ((1, 0) ∈ find_phase_transitions dupLabelSheet) ∧ ¬((1 : Nat) ≤ 0) := by
  refine ⟨by decide, by decide, by decide⟩

/-- C8 (amended): PROVIDED the phase label occurs in at most one scanned
cell per sheet row (equivalently, the recorded phase rows are strictly
increasing), the segmented ranges satisfy every claimed invariant:
`1 ≤ startRow ≤ endRow ≤ lastRow` for each phase, consecutive phases
abut (`next.startRow = endRow + 1`), the last phase ends at the sheet's
last row, the ranges are pairwise non-overlapping and ordered by
appearance, and they jointly cover `[firstPhaseStart, lastRow]` with no
gaps. -/
theorem c8_segmentation_invariants (sheet : List (List PyVal))
    (hinc : (phase_rows sheet).Pairwise (· < ·)) :
    (∀ p ∈ find_phase_transitions sheet,
      1 ≤ p.1 ∧ p.1 ≤ p.2 ∧ p.2 ≤ sheet.length) ∧
    (find_phase_transitions sheet).Chain' (fun p q => q.1 = p.2 + 1) ∧
    (∀ q, (find_phase_transitions sheet).getLast? = some q → q.2 = sheet.length) ∧
    (find_phase_transitions sheet).Pairwise (fun p q => p.2 < q.1) ∧
    (∀ n h0, (find_phase_transitions sheet).head? = some h0 → h0.1 ≤ n →
      n ≤ sheet.length → ∃ p ∈ find_phase_transitions sheet, p.1 ≤ n ∧ n ≤ p.2) := by
  have hbd := phase_rows_bounds sheet
  have hpos : ∀ x ∈ phase_rows sheet, 1 ≤ x := fun x hx => (hbd x hx).1
  have hle : ∀ x ∈ phase_rows sheet, x ≤ sheet.length := fun x hx => (hbd x hx).2
  unfold find_phase_transitions
  refine ⟨fun p hp => ?_, assignEnds_chain _ _ hpos, fun q => assignEnds_getLast _ _ q,
    assignEnds_pairwise _ _ hinc, fun n h0 hh h1 h2 => ?_⟩
  · refine ⟨?_, assignEnds_start_le_end _ _ hinc hle p hp, assignEnds_end_le _ _ hle p hp⟩
    exact hpos p.1 (assignEnds_fst_mem _ _ p hp)
  · rcases hrows : phase_rows sheet with _ | ⟨x, xs⟩
    · rw [hrows] at hh
      simp [assignEnds] at hh
    · have hx0 : x = h0.1 := by
        obtain ⟨e, rest, heq⟩ := assignEnds_head_fst x xs sheet.length
        rw [hrows, heq] at hh
        simp only [List.head?_cons, Option.some.injEq] at hh
        rw [← hh]
      exact assignEnds_cover (x :: xs) sheet.length n x rfl (by omega) h2

/-- A two-phase ledger sheet with one label per row. -/
def twoPhaseSheet : List (List PyVal) :=
  [[PyVal.text "Main Collection Escrow A/c Phase 1"],
   [PyVal.text "x"],
   [PyVal.text "Main Collection Escrow A/c Phase 2"],
   [PyVal.text "y"]]

/-- Witness for C8 (amended), at the concrete two-phase sheet. -/
theorem c8_segmentation_invariants_witness :
    (phase_rows twoPhaseSheet).Pairwise (· < ·) ∧
    ((∀ p ∈ find_phase_transitions twoPhaseSheet,
      1 ≤ p.1 ∧ p.1 ≤ p.2 ∧ p.2 ≤ twoPhaseSheet.length) ∧
    (find_phase_transitions twoPhaseSheet).Chain' (fun p q => q.1 = p.2 + 1) ∧
    (∀ q, (find_phase_transitions twoPhaseSheet).getLast? = some q →
      q.2 = twoPhaseSheet.length) ∧
    (find_phase_transitions twoPhaseSheet).Pairwise (fun p q => p.2 < q.1) ∧
    (∀ n h0, (find_phase_transitions twoPhaseSheet).head? = some h0 → h0.1 ≤ n →
      n ≤ twoPhaseSheet.length →
      ∃ p ∈ find_phase_transitions twoPhaseSheet, p.1 ≤ n ∧ n ≤ p.2)) :=
  ⟨by decide, c8_segmentation_invariants twoPhaseSheet (by decide)⟩

section NormalizerLemmas

/-- On an ASCII lower-case letter, `Char.toUpper` subtracts 32. -/
theorem toUpper_of_lower (c : Char) (h : 97 ≤ c.toNat ∧ c.toNat ≤ 122) :
    c.toUpper = Char.ofNat (c.toNat - 32) := by
  unfold Char.toUpper
  rw [if_pos ⟨h.1, h.2⟩]

/-- Off the lower-case range, `Char.toUpper` is the identity. -/
theorem toUpper_of_not_lower (c : Char) (h : ¬(97 ≤ c.toNat ∧ c.toNat ≤ 122)) :
    c.toUpper = c := by
  unfold Char.toUpper
  rw [if_neg h]

/-- Upper-casing is idempotent. -/
theorem toUpper_idem (c : Char) : c.toUpper.toUpper = c.toUpper := by
  by_cases h : 97 ≤ c.toNat ∧ c.toNat ≤ 122
  · rw [toUpper_of_lower c h]
    obtain ⟨h1, h2⟩ := h
    generalize hn : c.toNat = n at h1 h2 ⊢
    interval_cases n <;> decide
  · rw [toUpper_of_not_lower c h, toUpper_of_not_lower c h]

/-- Upper-casing a non-whitespace character stays non-whitespace. -/
theorem pySpace_toUpper (c : Char) (h : pySpace c = false) :
    pySpace c.toUpper = false := by
  by_cases hl : 97 ≤ c.toNat ∧ c.toNat ≤ 122
  · rw [toUpper_of_lower c hl]
    obtain ⟨h1, h2⟩ := hl
    generalize hn : c.toNat = n at h1 h2 ⊢
    interval_cases n <;> decide
  · rw [toUpper_of_not_lower c hl]
    exact h

/-- A decimal digit is not Python whitespace. -/
theorem pySpace_of_isDigit (c : Char) (h : c.isDigit = true) : pySpace c = false := by
  rcases hps : pySpace c
  · rfl
  · exfalso
    unfold pySpace at hps
    simp only [Bool.or_eq_true, decide_eq_true_eq] at hps
    rcases hps with ((((h1 | h1) | h1) | h1) | h1) | h1 <;> subst h1 <;>
      exact absurd h (by decide)

/-- The head of a `dropWhile` result fails the predicate. -/
theorem dropWhile_head_false (p : Char → Bool) :
    ∀ (l : List Char) (a : Char), (l.dropWhile p).head? = some a → p a = false
  | [], a => by simp
  | c :: cs, a => by
    by_cases h : p c
    · rw [List.dropWhile_cons_of_pos h]
      exact dropWhile_head_false p cs a
    · rw [List.dropWhile_cons_of_neg h]
      intro hh
      obtain rfl : c = a := by simpa using hh
      simpa using h

/-- `dropWhile` is the identity when the head already fails the
predicate. -/
theorem dropWhile_eq_self_of_head (p : Char → Bool) (l : List Char)
    (h : ∀ a, l.head? = some a → p a = false) : l.dropWhile p = l := by
  cases l with
  | nil => rfl
  | cons c cs =>
    rw [List.dropWhile_cons_of_neg]
    simp [h c rfl]

/-- A non-empty `dropWhile` result keeps the original last element. -/
theorem dropWhile_getLast (p : Char → Bool) :
    ∀ (l : List Char), l.dropWhile p ≠ [] → (l.dropWhile p).getLast? = l.getLast?
  | [], h => absurd rfl h
  | c :: cs, h => by
    by_cases hp : p c
    · rw [List.dropWhile_cons_of_pos hp] at h ⊢
      have hcs : cs ≠ [] := by
        intro hnil
        subst hnil
        simp at h
      rw [dropWhile_getLast p cs h]
      cases cs with
      | nil => exact absurd rfl hcs
      | cons d ds => exact (List.getLast?_cons_cons).symm
    · rw [List.dropWhile_cons_of_neg hp]

/-- A list has "clean ends" when neither its first nor last character is
Python whitespace. -/
def okEnds (x : List Char) : Prop :=
  (∀ a, x.head? = some a → pySpace a = false) ∧
  (∀ a, x.getLast? = some a → pySpace a = false)

/-- `strip` output has clean ends. -/
theorem okEnds_stripL (l : List Char) : okEnds (stripL l) := by
  unfold stripL rstripL lstripL
  constructor
  · intro a ha
    rw [List.head?_reverse] at ha
    have hne : (l.dropWhile pySpace).reverse.dropWhile pySpace ≠ [] := by
      intro h0
      rw [h0] at ha
      exact Option.noConfusion ha
    rw [dropWhile_getLast pySpace _ hne] at ha
    rw [List.getLast?_eq_head?_reverse, List.reverse_reverse] at ha
    exact dropWhile_head_false pySpace l a ha
  · intro a ha
    rw [List.getLast?_eq_head?_reverse, List.reverse_reverse] at ha
    exact dropWhile_head_false pySpace (l.dropWhile pySpace).reverse a ha

/-- `strip` does nothing to a list with clean ends. -/
theorem stripL_eq_self (x : List Char) (h : okEnds x) : stripL x = x := by
  unfold stripL rstripL lstripL
  rw [dropWhile_eq_self_of_head pySpace x h.1]
  have h2 : ∀ a, x.reverse.head? = some a → pySpace a = false := by
    intro a ha
    rw [List.head?_reverse] at ha
    exact h.2 a ha
  rw [dropWhile_eq_self_of_head pySpace x.reverse h2, List.reverse_reverse]

/-- Upper-casing preserves clean ends. -/
theorem okEnds_upperL (x : List Char) (h : okEnds x) : okEnds (upperL x) := by
  constructor
  · intro a ha
    rw [upperL, List.head?_map] at ha
    rcases hx : x.head? with _ | b <;> rw [hx] at ha
    · exact Option.noConfusion ha
    · obtain rfl : b.toUpper = a := by simpa using ha
      exact pySpace_toUpper b (h.1 b hx)
  · intro a ha
    rw [upperL, List.getLast?_map] at ha
    rcases hx : x.getLast? with _ | b <;> rw [hx] at ha
    · exact Option.noConfusion ha
    · obtain rfl : b.toUpper = a := by simpa using ha
      exact pySpace_toUpper b (h.2 b hx)

/-- The head of the space-removal output keeps failing `pySpace` when
the input's head did (the head character is not a space, so it
survives the filter). -/
theorem delSpaces_head (x : List Char)
    (hh : ∀ a, x.head? = some a → pySpace a = false) :
    ∀ a, (delSpacesL x).head? = some a → pySpace a = false := by
  cases x with
  | nil => intro a ha; simp [delSpacesL] at ha
  | cons c cs =>
    intro a ha
    have hc : pySpace c = false := hh c rfl
    have hcne : c ≠ ' ' := by
      intro hcc
      rw [hcc] at hc
      exact absurd hc (by decide)
    rw [show delSpacesL (c :: cs) = c :: delSpacesL cs from by
      simp [delSpacesL, hcne]] at ha
    obtain rfl : c = a := by simpa using ha
    exact hc

/-- Space removal preserves clean ends. -/
theorem okEnds_delSpacesL (x : List Char) (h : okEnds x) : okEnds (delSpacesL x) := by
  constructor
  · exact delSpaces_head x h.1
  · intro a ha
    rw [List.getLast?_eq_head?_reverse] at ha
    have hrev : (delSpacesL x).reverse = delSpacesL x.reverse :=
      (List.filter_reverse _ _).symm
    rw [hrev] at ha
    refine delSpaces_head x.reverse ?_ a ha
    intro b hb
    rw [List.head?_reverse] at hb
    exact h.2 b hb

/-- The cleanup pipeline's output has clean ends. -/
theorem okEnds_cleanL (l : List Char) : okEnds (cleanL l) :=
  okEnds_delSpacesL _ (okEnds_upperL _ (okEnds_stripL l))

/-- Every character of the cleanup output is already upper-cased. -/
theorem cleanL_mem_toUpper (l : List Char) : ∀ a ∈ cleanL l, a.toUpper = a := by
  intro a ha
  unfold cleanL delSpacesL at ha
  have ha2 := List.mem_of_mem_filter ha
  unfold upperL at ha2
  rw [List.mem_map] at ha2
  obtain ⟨b, _, rfl⟩ := ha2
  exact toUpper_idem b

/-- The cleanup output has no space characters. -/
theorem cleanL_mem_ne_space (l : List Char) : ∀ a ∈ cleanL l, a ≠ ' ' := by
  intro a ha
  unfold cleanL delSpacesL at ha
  simpa using List.of_mem_filter ha

/-- Upper-casing does nothing to an already-upper-cased list. -/
theorem upperL_eq_self (x : List Char) (h : ∀ a ∈ x, a.toUpper = a) :
    upperL x = x := by
  unfold upperL
  calc x.map Char.toUpper = x.map id := List.map_congr_left h
    _ = x := List.map_id x

/-- Space removal does nothing to a space-free list. -/
theorem delSpacesL_eq_self (x : List Char) (h : ∀ a ∈ x, a ≠ ' ') :
    delSpacesL x = x := by
  unfold delSpacesL
  rw [List.filter_eq_self]
  intro a ha
  simpa using h a ha

/-- The cleanup pipeline is idempotent. -/
theorem cleanL_idem (l : List Char) : cleanL (cleanL l) = cleanL l := by
  show delSpacesL (upperL (stripL (cleanL l))) = cleanL l
  rw [stripL_eq_self _ (okEnds_cleanL l), upperL_eq_self _ (cleanL_mem_toUpper l),
    delSpacesL_eq_self _ (cleanL_mem_ne_space l)]

/-- Inversion for `startsWithCA`. -/
theorem startsWithCA_head (u : List Char) (h : startsWithCA u = true) :
    ∃ rest, u = 'C' :: 'A' :: rest := by
  match u with
  | [] => simp [startsWithCA] at h
  | [c] => simp [startsWithCA] at h
  | c :: d :: rest =>
    simp only [startsWithCA, Bool.and_eq_true, decide_eq_true_eq] at h
    exact ⟨rest, by rw [h.1, h.2]⟩

/-- The last element of a non-empty `drop` is the original last
element. -/
theorem getLast?_drop_of_ne_nil :
    ∀ (u : List Char) (k : Nat), u.drop k ≠ [] → (u.drop k).getLast? = u.getLast?
  | [], k, h => by simp at h
  | c :: cs, 0, h => rfl
  | c :: cs, k + 1, h => by
    rw [List.drop_succ_cons] at h ⊢
    rw [getLast?_drop_of_ne_nil cs k h]
    cases cs with
    | nil => simp at h
    | cons d ds => exact (List.getLast?_cons_cons).symm

/-- Unfolding of `normalizeL` on a non-empty input. -/
theorem normalizeL_spec (l : List Char) (hl : l ≠ []) :
    normalizeL l =
      if ('-' ∉ cleanL l) ∧ 5 ≤ (cleanL l).length then
        if startsWithCA (cleanL l) ∧ isdigitL ((cleanL l).drop 2) then
          if 7 ≤ (cleanL l).length then
            (cleanL l).take 4 ++ '-' :: (cleanL l).drop 4
          else (cleanL l).take 3 ++ '-' :: (cleanL l).drop 3
        else cleanL l
      else cleanL l := by
  unfold normalizeL
  rw [if_neg hl]

/-- `normalizeL` does nothing to an already-clean input on which the
hyphen-insertion branch does not fire. -/
theorem normalizeL_eq_self (x : List Char) (hclean : cleanL x = x)
    (h : ¬((('-' ∉ x) ∧ 5 ≤ x.length) ∧
      (startsWithCA x ∧ isdigitL (x.drop 2)))) :
    normalizeL x = x := by
  by_cases hx : x = []
  · subst hx
    rfl
  · rw [normalizeL_spec x hx, hclean]
    by_cases h1 : ('-' ∉ x) ∧ 5 ≤ x.length
    · rw [if_pos h1, if_neg (fun h2 => h ⟨h1, h2⟩)]
    · rw [if_neg h1]

/-- Hyphen insertion into an upper-cased, space-free `CA…digits` string
yields a string the cleanup pipeline leaves alone. -/
theorem cleanL_hyphenated (u : List Char) (k : Nat)
    (hfix : ∀ a ∈ u, a.toUpper = a) (hnosp : ∀ a ∈ u, a ≠ ' ')
    (hCA : startsWithCA u = true) (hdig : isdigitL (u.drop 2) = true)
    (hk : 1 ≤ k) (hklen : k < u.length) :
    cleanL (u.take k ++ '-' :: u.drop k) = u.take k ++ '-' :: u.drop k := by
  have hdropne : u.drop k ≠ [] := by
    intro h0
    rw [List.drop_eq_nil_iff] at h0
    omega
  have hvfix : ∀ a ∈ u.take k ++ '-' :: u.drop k, a.toUpper = a := by
    intro a ha
    rw [List.mem_append, List.mem_cons] at ha
    rcases ha with ha | rfl | ha
    · exact hfix a (List.take_subset k u ha)
    · decide
    · exact hfix a (List.drop_subset k u ha)
  have hvnosp : ∀ a ∈ u.take k ++ '-' :: u.drop k, a ≠ ' ' := by
    intro a ha
    rw [List.mem_append, List.mem_cons] at ha
    rcases ha with ha | rfl | ha
    · exact hnosp a (List.take_subset k u ha)
    · decide
    · exact hnosp a (List.drop_subset k u ha)
  have hhead : (u.take k ++ '-' :: u.drop k).head? = some 'C' := by
    obtain ⟨rest, hrest⟩ := startsWithCA_head u hCA
    obtain ⟨k2, hk2⟩ : ∃ k2, k = k2 + 1 := ⟨k - 1, by omega⟩
    rw [hrest, hk2, List.take_succ_cons]
    rfl
  have hlast : ∃ dch, (u.take k ++ '-' :: u.drop k).getLast? = some dch ∧
      pySpace dch = false := by
    have hdig2 := hdig
    unfold isdigitL at hdig2
    simp only [Bool.and_eq_true, decide_eq_true_eq] at hdig2
    have h2ne : u.drop 2 ≠ [] := hdig2.1
    have hgd : (u.drop 2).getLast? = u.getLast? := getLast?_drop_of_ne_nil u 2 h2ne
    rcases hgl : (u.drop 2).getLast? with _ | dch
    · exact absurd (List.getLast?_eq_none_iff.mp hgl) h2ne
    · have hdd : dch.isDigit = true :=
        List.all_eq_true.mp hdig2.2 dch (List.mem_of_getLast?_eq_some hgl)
      refine ⟨dch, ?_, pySpace_of_isDigit dch hdd⟩
      rw [List.getLast?_append]
      have hky : ('-' :: u.drop k).getLast? = some dch := by
        have hgk : (u.drop k).getLast? = u.getLast? := getLast?_drop_of_ne_nil u k hdropne
        cases hdk : u.drop k with
        | nil => exact absurd hdk hdropne
        | cons e es =>
          rw [hdk] at hgk
          rw [show ('-' :: e :: es).getLast? = (e :: es).getLast? from
            List.getLast?_cons_cons]
          rw [hgk, ← hgd, hgl]
      rw [hky]
      rfl
  have hok : okEnds (u.take k ++ '-' :: u.drop k) := by
    constructor
    · intro a ha
      rw [hhead] at ha
      obtain rfl : 'C' = a := Option.some.inj ha
      decide
    · intro a ha
      obtain ⟨dch, hd1, hd2⟩ := hlast
      rw [hd1] at ha
      obtain rfl : dch = a := Option.some.inj ha
      exact hd2
  show delSpacesL (upperL (stripL (u.take k ++ '-' :: u.drop k))) = _
  rw [stripL_eq_self _ hok, upperL_eq_self _ hvfix, delSpacesL_eq_self _ hvnosp]

/-- `normalizeL` is idempotent. -/
theorem normalizeL_idem (l : List Char) : normalizeL (normalizeL l) = normalizeL l := by
  by_cases hl : l = []
  · subst hl
    rfl
  · rw [normalizeL_spec l hl]
    have hcl := cleanL_idem l
    by_cases h1 : ('-' ∉ cleanL l) ∧ 5 ≤ (cleanL l).length
    · by_cases h2 : startsWithCA (cleanL l) ∧ isdigitL ((cleanL l).drop 2)
      · by_cases h3 : 7 ≤ (cleanL l).length
        · rw [if_pos h1, if_pos h2, if_pos h3]
          refine normalizeL_eq_self _
            (cleanL_hyphenated (cleanL l) 4 (cleanL_mem_toUpper l)
              (cleanL_mem_ne_space l) h2.1 h2.2 (by omega) (by omega)) ?_
          intro hc
          exact hc.1.1 (List.mem_append.mpr (Or.inr (List.mem_cons_self '-' _)))
        · rw [if_pos h1, if_pos h2, if_neg h3]
          refine normalizeL_eq_self _
            (cleanL_hyphenated (cleanL l) 3 (cleanL_mem_toUpper l)
              (cleanL_mem_ne_space l) h2.1 h2.2 (by omega) (by omega)) ?_
          intro hc
          exact hc.1.1 (List.mem_append.mpr (Or.inr (List.mem_cons_self '-' _)))
      · rw [if_pos h1, if_neg h2]
        exact normalizeL_eq_self _ hcl (fun hc => h2 hc.2)
    · rw [if_neg h1]
      exact normalizeL_eq_self _ hcl (fun hc => h1 hc.1)

end NormalizerLemmas

/-- C9: the Identifier Normalizer is idempotent —
`normalize_unit_number (normalize_unit_number s) = normalize_unit_number s`
for every input string. -/
theorem c9_normalize_idempotent (s : String) :
    normalize_unit_number (normalize_unit_number s) = normalize_unit_number s := by
  show (⟨normalizeL (normalizeL s.data)⟩ : String) = ⟨normalizeL s.data⟩
  rw [normalizeL_idem s.data]

/-- C9 is universally quantified with no hypotheses, but a concrete
evaluation shows the theorem is not vacuous. -/
theorem c9_normalize_idempotent_witness :
    normalize_unit_number (normalize_unit_number "ca 071208") =
      normalize_unit_number "ca 071208" ∧
    normalize_unit_number "ca 071208" = "CA07-1208" :=
  ⟨c9_normalize_idempotent "ca 071208", by decide⟩

/-- C10: `extract_excel_date` is total and never raises — modelled over
any behaviour of the two library parsers it calls (`pandas.to_datetime`
and `datetime.strptime`): an input that is neither a positive number nor
a string (Python `None`, a non-positive number, an already-converted
datetime) is returned unchanged; a string either parses to a date or
yields `None` (absence), never an error; and a string on which every
strategy fails — pandas, all six `strptime` formats, the day/month/year
regex, and the ≥3-digit-runs fallback — yields `None`. -/
theorem c10_extract_date_total (pd : String → Option Int)
    (st : String → String → Option Int) (s : String) (x : ℚ) (d : Int) :
    extract_excel_date pd st PyVal.null = PyVal.null ∧
    extract_excel_date pd st (PyVal.date d) = PyVal.date d ∧
    (x ≤ 0 → extract_excel_date pd st (PyVal.num x) = PyVal.num x) ∧
    (extract_excel_date pd st (PyVal.text s) = PyVal.null ∨
      ∃ t, extract_excel_date pd st (PyVal.text s) = PyVal.date t) ∧
    (pd s = none → (∀ fmt ∈ strptime_formats, st fmt s = none) →
      searchDate s.data = none → (digitRuns s.data).length < 3 →
      extract_excel_date pd st (PyVal.text s) = PyVal.null) := by
  refine ⟨rfl, rfl, fun hx => ?_, ?_, fun h1 h2 h3 h4 => ?_⟩
  · show (if 0 < x then PyVal.date (excelEpoch + x.floor) else PyVal.num x) = PyVal.num x
    rw [if_neg (not_lt.mpr hx)]
  · rcases h : parse_date_string pd st s with _ | t
    · left
      show (match parse_date_string pd st s with
        | some t => PyVal.date t
        | none => PyVal.null) = PyVal.null
      rw [h]
    · right
      refine ⟨t, ?_⟩
      show (match parse_date_string pd st s with
        | some t => PyVal.date t
        | none => PyVal.null) = PyVal.date t
      rw [h]
  · have hnone : parse_date_string pd st s = none := by
      unfold parse_date_string
      rw [h1]
      have hfmt : strptime_formats.findSome? (fun fmt => st fmt s) = none :=
        List.findSome?_eq_none_iff.mpr h2
      rw [hfmt, h3]
      have hlen : ((digitRuns s.data).map digitsToNat).length < 3 := by
        rw [List.length_map]
        exact h4
      rcases hm : (digitRuns s.data).map digitsToNat with _ | ⟨a, _ | ⟨b, _ | ⟨c, r⟩⟩⟩
      · rfl
      · rfl
      · rfl
      · rw [hm] at hlen
        simp only [List.length_cons] at hlen
        exact absurd hlen (by omega)
    show (match parse_date_string pd st s with
      | some t => PyVal.date t
      | none => PyVal.null) = PyVal.null
    rw [hnone]

/-- Witness for C10, instantiating the library parsers with
nothing-parses stand-ins at the concrete unparseable string `"hello"`
and concrete non-string values. -/
theorem c10_extract_date_total_witness :
    extract_excel_date pdParseNone stParseNone PyVal.null = PyVal.null ∧
    ((-5 : ℚ) ≤ 0 ∧
      extract_excel_date pdParseNone stParseNone (PyVal.num (-5)) = PyVal.num (-5)) ∧
    pdParseNone "hello" = none ∧
    searchDate ("hello" : String).data = none ∧
    (digitRuns ("hello" : String).data).length < 3 ∧
    extract_excel_date pdParseNone stParseNone (PyVal.text "hello") = PyVal.null := by
  have h := c10_extract_date_total pdParseNone stParseNone "hello" (-5) 0
  refine ⟨h.1, ⟨by norm_num, h.2.2.1 (by norm_num)⟩, rfl, by decide, by decide, ?_⟩
  exact h.2.2.2.2 rfl (fun fmt _ => rfl) (by decide) (by decide)
end App
